import Mathlib

/-!
# Verification of the worm-geometry specification

Shallow embedding of the relevant parts of `src/worm/model.py` and
`src/worm/geometry.py` of the CElegansBehaviour repository, together with
theorems settling the frozen claims about them.

Conventions:
* numpy float arrays are embedded as `List ℚ` where the code only performs
  field arithmetic and comparisons, and as `List ℝ` where the code uses
  trigonometry or square roots (treating floats as exact reals);
* `n × 2` numpy arrays are `List (ℚ × ℚ)` / `List (ℝ × ℝ)`;
* code that can raise a Python exception is embedded in `Except String`;
* `np.nan` sentinels are embedded as `Option` values.

The file is organized as: all definitions first, then all theorems.
-/

namespace Worm

/-! ## Generic list helpers mirroring numpy primitives -/

/-- `np.cumsum` with a running accumulator (`np_cumsum_aux s l` is the list of
partial sums of `l` each shifted by `s`). -/
def np_cumsum_aux (s : ℝ) : List ℝ → List ℝ
  | [] => []
  | a :: l => (s + a) :: np_cumsum_aux (s + a) l

/-- `np.cumsum` on a 1-D array: `np_cumsum [a,b,c] = [a, a+b, a+b+c]`. -/
def np_cumsum (l : List ℝ) : List ℝ := np_cumsum_aux 0 l

/-- `np.diff(·, axis = 0)` on an `n × 2` array: consecutive differences. -/
def np_diff : List (ℝ × ℝ) → List (ℝ × ℝ)
  | a :: b :: l => (b - a) :: np_diff (b :: l)
  | _ => []

/-! ## `src/worm/model.py`: the `WormModel` aggregate -/

/-- The mutable state of a `WormModel` instance (attributes set in
`WormModel.__init__`, model.py lines 59-88).  `nparameter` (line 85) is the
derived quantity `2 * npoints`; we keep it as a function rather than a stored
field since it is always in sync with `npoints` in the source. -/
structure WormModel where
  center : List (ℚ × ℚ)
  width : List ℚ
  length : ℚ
  speed : ℚ
  xy : ℚ × ℚ
  npoints : ℕ
  deriving DecidableEq, Repr

/-- `self.nparameter = 2 * self.npoints` (model.py line 85). -/
def WormModel.nparameter (m : WormModel) : ℕ := 2 * m.npoints

/-- `WormModel.__init__` (model.py lines 39-88), specialized to an explicitly
given `center` array and an explicitly given `width` array (the branches
`center is None` / `width is None` build defaults instead and are not needed
for the claims).  The constructor stores the arrays, sets `npoints` from the
center line, `speed = 0.0`, and raises `ValueError` when the width sample
count differs from `npoints` (lines 81-82). -/
def WormModel.init (center : List (ℚ × ℚ)) (width : List ℚ) (xy : ℚ × ℚ)
    (length : ℚ) : Except String WormModel :=
  let npoints := center.length
  if npoints ≠ width.length then
    Except.error "ValueError: Number of sample points along center line does not match sample points for width"
  else
    Except.ok { center := center, width := width, length := length, speed := 0,
                xy := xy, npoints := npoints }

/-- `ndarray.flatten()` on an `n × 2` array (row-major). -/
def flatten_pairs : List (ℚ × ℚ) → List ℚ
  | [] => []
  | p :: l => p.1 :: p.2 :: flatten_pairs l

/-- `np.reshape(·, (n, 2))` (row-major) on a flat list. -/
def to_pairs : List ℚ → List (ℚ × ℚ)
  | a :: b :: l => (a, b) :: to_pairs l
  | _ => []

/-- `WormModel.get_parameter` (model.py lines 97-104):
`par = self.center.flatten()`, extended with
`[self.length, self.speed] ++ self.width` when `full` is true. -/
def WormModel.get_parameter (m : WormModel) (full : Bool) : List ℚ :=
  let par := flatten_pairs m.center
  if full then par ++ [m.length, m.speed] ++ m.width else par

/-- `WormModel.set_parameter` (model.py lines 106-120).
`self.center = np.reshape(parameter[0:2*npoints], (npoints, 2))` raises
`ValueError` when fewer than `2*npoints` entries are supplied.  When
`len(parameter) > self.nparameter`, lines 115-118 assign one-element slices to
`self.length` and `self.speed`, and line 119 then evaluates
`self.width.nparameter`; `self.width` is always a `numpy.ndarray` (set in
`__init__` lines 74-82, or in `from_shape`/`from_center`), which has no
attribute `nparameter`, so the call raises `AttributeError` before `self.width`
is reassigned. -/
def WormModel.set_parameter (m : WormModel) (parameter : List ℚ) :
    Except String WormModel :=
  if parameter.length < 2 * m.npoints then
    Except.error "ValueError: cannot reshape array"
  else if 2 * m.npoints < parameter.length then
    Except.error "AttributeError: numpy.ndarray object has no attribute nparameter"
  else
    Except.ok { m with center := to_pairs (parameter.take (2 * m.npoints)) }

/-- `WormModel.translate` (model.py lines 488-494): `self.center += np.array(xy)`;
no other attribute is touched. -/
def WormModel.translate (m : WormModel) (xy : ℚ × ℚ) : WormModel :=
  { m with center := m.center.map (· + xy) }

/-! ## `src/worm/geometry.py`: exact-arithmetic parts -/

/-- `shape_from_center_discrete` (geometry.py lines 1007-1036), for a supplied
`normals` array (when `normals is None` the source computes
`normals_from_center_discrete(center)` instead; the claims only concern the
supplied case).  `resample` abstracts the external black-box
`interpolation.resampling.resample` used at line 1022 for a width whose
sample count differs from the center's; the formulas are
`left = center + 0.5*w*normals`, `right = center - 0.5*w*normals`
(lines 1030-1031).  `sfc_width` is the width-selection step of lines
1021-1024: resample exactly when `width.shape[0] != center.shape[0]`. -/
def sfc_width (resample : List ℚ → ℕ → List ℚ) (width : List ℚ) (n : ℕ) :
    List ℚ :=
  if width.length ≠ n then resample width n else width

def shape_from_center_discrete (resample : List ℚ → ℕ → List ℚ)
    (center : List (ℚ × ℚ)) (width : List ℚ) (normals : List (ℚ × ℚ)) :
    List (ℚ × ℚ) × List (ℚ × ℚ) :=
  let w := sfc_width resample width center.length
  let left := List.zipWith (fun c (p : ℚ × (ℚ × ℚ)) => c + ((1 : ℚ) / 2 * p.1) • p.2)
    center (w.zip normals)
  let right := List.zipWith (fun c (p : ℚ × (ℚ × ℚ)) => c - ((1 : ℚ) / 2 * p.1) • p.2)
    center (w.zip normals)
  (left, right)

/-- Comparison of (position, value) pairs by value, used to embed
`np.argsort`. -/
def pairLE (p q : ℕ × ℚ) : Prop := p.2 ≤ q.2

instance : DecidableRel pairLE := fun p q => inferInstanceAs (Decidable (p.2 ≤ q.2))

instance : IsTotal (ℕ × ℚ) pairLE := ⟨fun a b => le_total a.2 b.2⟩

instance : IsTrans (ℕ × ℚ) pairLE := ⟨fun _ _ _ h₁ h₂ => le_trans h₁ h₂⟩

/-- `np.argsort` (ascending, stable on ties) of a 1-D array, as the list of
positions.  numpy's default quicksort agrees with this up to the order of
tied values. -/
def np_argsort (l : List ℚ) : List ℕ :=
  (((List.range l.length).map (fun i => (i, l.getD i 0))).insertionSort pairLE).map
    Prod.fst

/-- `np.sort` on a 1-D integer array (ascending). -/
def np_sort_nat (l : List ℕ) : List ℕ := l.insertionSort (· ≤ ·)

/-- The head/tail resolution step of `shape_from_image`
(geometry.py lines 1415-1482) in the case `head_tail_hint is None`
(the hint branches are not needed for the claims).  Input: the curvature peak
positions `peak_ids` and peak heights `peak_values` found by the external
`find_peaks` (already filtered to `0 ≤ id < ncontour`), the contour sample
count `ncontour`, and the running `status` accumulator.  Output: the pair
`imax` of head/tail contour indices and the updated status:
* `len(peak_ids) >= 2`: `imax = np.sort(peak_ids[np.argsort(peak_values)[-2:]])`,
  `status += 20` (lines 1431-1434);
* `len(peak_ids) == 1`:
  `imax = np.sort(np.mod(peak_ids[0] + np.array([0, ncontour//2]), ncontour))`,
  `status += 40` (lines 1462-1465);
* no peaks: `imax = [0, ncontour//2]`, `status += 60` (lines 1479-1481). -/
def find_head_tail_no_hint (peak_ids : List ℕ) (peak_values : List ℚ)
    (ncontour : ℕ) (status : ℕ) : List ℕ × ℕ :=
  if 2 ≤ peak_ids.length then
    let pos := (np_argsort peak_values).drop ((np_argsort peak_values).length - 2)
    (np_sort_nat (pos.map (fun p => peak_ids.getD p 0)), status + 20)
  else if peak_ids.length = 1 then
    (np_sort_nat [peak_ids.getD 0 0 % ncontour,
                  (peak_ids.getD 0 0 + ncontour / 2) % ncontour], status + 40)
  else
    ([0, ncontour / 2], status + 60)

/-- `np.argmin` on a 1-D array: position of the first minimum (`0` on an
empty array never arises in the embedded code paths). -/
def np_argmin (l : List ℚ) : ℕ :=
  (l.foldl (fun (st : ℕ × ℕ × Option ℚ) a =>
    match st with
    | (best, idx, none) => (idx, idx + 1, some a)
    | (best, idx, some m) => if a < m then (idx, idx + 1, some a) else (best, idx + 1, some m))
    (0, 0, none)).1

/-- `ndarray.max()` on a nonempty 1-D array. -/
def np_max (l : List ℚ) : ℚ :=
  match l with
  | [] => 0
  | a :: t => t.foldl (fun m b => if m ≤ b then b else m) a

/-- Result record for the head/tail matching step of
`distance_shape_to_contour_discrete`; `none` stands for the `np.nan` distance
sentinel / `None` match index. -/
structure HeadTailMatch where
  distance_head : Option ℚ
  head_match : Option ℕ
  distance_tail : Option ℚ
  tail_match : Option ℕ
  deriving DecidableEq, Repr

/-- The head/tail matching block of `distance_shape_to_contour_discrete`
(geometry.py lines 2150-2181), parameterized by the distance arrays
`dists_head = np.linalg.norm(left[0] - match_head_tail, axis=1)` and
`dists_tail = np.linalg.norm(left[-1] - match_head_tail, axis=1)` computed in
lines 2154-2155 (both of length `len(match_head_tail)`; the Euclidean norm is
external to this block, so the block is embedded as a function of the two
arrays).  Note the source's head-reassignment branch (lines 2173-2176)
updates `head_match` but then executes `dists_head = dists_tail[head_match]`
(line 2176), so `distance_head` keeps the value assigned at line 2158 — the
distance to the originally nearest hint point; the tail-reassignment branch
(lines 2165-2168) updates `distance_tail` to the new candidate's distance. -/
def match_head_tail_discrete (dists_head dists_tail : List ℚ) : HeadTailMatch :=
  if dists_head.length = 0 then
    ⟨none, none, none, none⟩
  else
    let head_match := np_argmin dists_head
    let tail_match := np_argmin dists_tail
    let distance_head := dists_head.getD head_match 0
    let distance_tail := dists_tail.getD tail_match 0
    if head_match = tail_match then
      if distance_head ≤ distance_tail then
        if dists_tail.length ≤ 1 then
          ⟨some distance_head, some head_match, none, none⟩
        else
          let dt := dists_tail.set tail_match (np_max dists_tail + 1)
          let tail_match' := np_argmin dt
          ⟨some distance_head, some head_match, some (dt.getD tail_match' 0), some tail_match'⟩
      else
        if dists_head.length ≤ 1 then
          ⟨none, none, some distance_tail, some tail_match⟩
        else
          let dh := dists_head.set head_match (np_max dists_head + 1)
          let head_match' := np_argmin dh
          ⟨some distance_head, some head_match', some distance_tail, some tail_match⟩
    else
      ⟨some distance_head, some head_match, some distance_tail, some tail_match⟩

/-- `np.zeros(n)`: 1-D zero array. -/
def np_zeros1 (n : ℕ) : List ℚ := List.replicate n 0

/-- `np.zeros((n, 2))`: `n × 2` zero array. -/
def np_zeros2 (n : ℕ) : List (ℚ × ℚ) := List.replicate n (0, 0)

/-- `np.zeros(shape, dtype)` called with an ndarray as the `dtype` argument:
numpy raises `TypeError: Cannot interpret 'array(...)' as a data type`
(numpy semantics; numpy is an external collaborator of this repository). -/
def np_zeros2_with_array_dtype (n : ℕ) (dtype : List ℚ) :
    Except String (List (ℚ × ℚ)) :=
  Except.error "TypeError: Cannot interpret ndarray as a data type"

/-- The terminal no-contour failure path of `shape_from_image`
(geometry.py lines 1326-1334): reached when `detect_contour` finds no contour
at the initial threshold and again none at the reduced threshold.  The source
executes
`return -1, np.zeros((npoints,2)), np.zeros((npoints,2)), np.zeros((npoints,2), np.zeros(npoints))`
— a 4-tuple (not the 5-tuple of the success path, line 1599) whose last
element calls `np.zeros` with `np.zeros(npoints)` in the `dtype` position
(a misplaced closing parenthesis), which raises `TypeError` while the tuple
is being evaluated. -/
def shape_from_image_no_contour (npoints : ℕ) :
    Except String (ℤ × List (ℚ × ℚ) × List (ℚ × ℚ) × List (ℚ × ℚ)) := do
  let a := np_zeros2 npoints
  let b := np_zeros2 npoints
  let c ← np_zeros2_with_array_dtype npoints (np_zeros1 npoints)
  return (-1, a, b, c)

/-! ## `src/worm/geometry.py`: trigonometric parts (over ℝ) -/

noncomputable section

/-- `np.arctan2(x, y)`: the angle of the point `(y, x)`, i.e. the argument of
the complex number `y + x*i`, in `(-π, π]`.  (The source always calls
`np.arctan2` with the x-component of a vector as the first argument and the
y-component as the second, as in `np.arctan2(centervec[:,0], centervec[:,1])`.) -/
def np_arctan2 (x y : ℝ) : ℝ := Complex.arg ⟨y, x⟩

/-- `np.mod(a, b)` for real arguments: `a - b * floor(a / b)` (numpy's result
for positive `b`). -/
def np_mod (a b : ℝ) : ℝ := a - b * ⌊a / b⌋

/-- The wrapping pattern `np.mod(x + π, 2π) - π` used at geometry.py
lines 631 and 639 to bring an angle difference into `[-π, π)`. -/
def wrap_angle (x : ℝ) : ℝ := np_mod (x + Real.pi) (2 * Real.pi) - Real.pi

/-- The `(theta, orientation, xy, length)` quadruple returned by
`theta_from_center_discrete`. -/
structure ThetaState where
  theta : List ℝ
  orientation : ℝ
  xy : ℝ × ℝ
  length : ℝ

/-- `theta_from_center_discrete` (geometry.py lines 584-648) with the default
arguments `npoints = all, nsamples = all, resample = False, smooth = 0`: then
`nsamples = npoints = center.shape[0]` and no resampling occurs
(lines 611-622, 645-646), so the function computes, with
`centervec = np.diff(center, axis=0)` and `n2 = (nsamples-1)//2`:
* `orientation = np.mod(arctan2(1,0) - arctan2(centervec[n2,0], centervec[n2,1]) + π, 2π) - π`
  (line 631, with reference vector `t0 = [1,0]`);
* `xy = centercurve[n2]` (line 635);
* `theta = (np.mod(arctan2(v[:-1]) - arctan2(v[1:]) + π, 2π) - π) * (nsamples-1)`
  (lines 638-640);
* `length = np.linalg.norm(centervec, axis=1).sum()` (line 643). -/
def theta_from_center_discrete (center : List (ℝ × ℝ)) : ThetaState :=
  let nsamples := center.length
  let n2 := (nsamples - 1) / 2
  let centervec := np_diff center
  let t1 := centervec.getD n2 (0, 0)
  let orientation := wrap_angle (np_arctan2 1 0 - np_arctan2 t1.1 t1.2)
  let xy := center.getD n2 (0, 0)
  let theta := (centervec.zip centervec.tail).map
    (fun vw => wrap_angle (np_arctan2 vw.1.1 vw.1.2 - np_arctan2 vw.2.1 vw.2.2) *
      ((nsamples : ℝ) - 1))
  let length := (centervec.map (fun v => Real.sqrt (v.1 ^ 2 + v.2 ^ 2))).sum
  ⟨theta, orientation, xy, length⟩

/-- The integrated angle array of `center_from_theta_discrete`
(geometry.py lines 753-756): `itheta = np.cumsum(np.hstack([0, theta])) * delta`
with `delta = 1/(nsamples-1)`, then re-anchored by
`itheta += orientation - itheta[n2]`. -/
def cft_itheta (theta : List ℝ) (orientation : ℝ) : List ℝ :=
  let nsamples := theta.length + 2
  let delta : ℝ := 1 / ((nsamples : ℝ) - 1)
  let it0 := (np_cumsum ((0 : ℝ) :: theta)).map (· * delta)
  it0.map (· + (orientation - it0.getD ((nsamples - 1) / 2) 0))

/-- `center_from_theta_discrete` (geometry.py lines 715-780) with the default
arguments `npoints = all, nsamples = all, resample = False, smooth = 0,
with_normals = False`: then `nsamples = npoints = theta.shape[0] + 2` and no
resampling occurs (lines 739-750, 768-769), so the function computes
(lines 753-766): the re-anchored integrated angle `itheta` (see `cft_itheta`),
then `center = vstack([[0,0]], vstack([cumsum(cos itheta), cumsum(sin itheta)]).T)`,
scales it by `length * delta`, and re-anchors by `center += xy - center[n2]`. -/
def center_from_theta_discrete (theta : List ℝ) (orientation : ℝ)
    (xy : ℝ × ℝ) (length : ℝ) : List (ℝ × ℝ) :=
  let nsamples := theta.length + 2
  let n2 := (nsamples - 1) / 2
  let delta : ℝ := 1 / ((nsamples : ℝ) - 1)
  let it := cft_itheta theta orientation
  let center1 := (((0 : ℝ), (0 : ℝ)) ::
    (np_cumsum (it.map Real.cos)).zip (np_cumsum (it.map Real.sin))).map
      (fun p => (length * delta) • p)
  center1.map (fun p => p + (xy - center1.getD n2 (0, 0)))

/-- `np.linalg.norm(·, axis=0)` on an `n × 2` array: the Euclidean norms of
the two *columns* (an array of length 2, one entry per coordinate). -/
def np_norm_axis0 (l : List (ℝ × ℝ)) : List ℝ :=
  [Real.sqrt ((l.map (fun p => p.1 ^ 2)).sum),
   Real.sqrt ((l.map (fun p => p.2 ^ 2)).sum)]

/-- `center_from_sides_mean` (geometry.py lines 354-391) with
`with_width = True`, specialized to side curves of equal length and
`resample = False` (then `nsamples = npoints = len(left) = len(right)` and
neither resampling branch fires, lines 367-385):
`center = (leftcurve + rightcurve) / 2` (line 382) and
`width = np.linalg.norm(leftcurve - rightcurve, axis = 0)` (line 388 —
note `axis = 0`: the result is the pair of column norms, an array of
length 2, not the pointwise separations). -/
def center_from_sides_mean (left right : List (ℝ × ℝ)) :
    List (ℝ × ℝ) × List ℝ :=
  (List.zipWith (fun a b => ((1 : ℝ) / 2) • (a + b)) left right,
   np_norm_axis0 (List.zipWith (· - ·) left right))

end

/-! ## Theorems: list helpers -/

theorem np_cumsum_aux_length (s : ℝ) (l : List ℝ) :
    (np_cumsum_aux s l).length = l.length := by
  induction l generalizing s with
  | nil => rfl
  | cons a l ih => simp [np_cumsum_aux, ih]

theorem np_cumsum_length (l : List ℝ) : (np_cumsum l).length = l.length :=
  np_cumsum_aux_length 0 l

theorem np_cumsum_aux_getD (s : ℝ) (l : List ℝ) (i : ℕ) (h : i < l.length) :
    (np_cumsum_aux s l).getD i 0 = s + ∑ j ∈ Finset.range (i + 1), l.getD j 0 := by
  induction l generalizing s i with
  | nil => simp at h
  | cons a l ih =>
      cases i with
      | zero => simp [np_cumsum_aux]
      | succ i =>
          have h' : i < l.length := by simpa using h
          have := ih (s + a) i h'
          simp only [np_cumsum_aux, List.getD_cons_succ, this]
          rw [Finset.sum_range_succ' (fun j => (a :: l).getD j 0)]
          simp [add_comm, add_assoc, add_left_comm]

theorem np_cumsum_getD (l : List ℝ) (i : ℕ) (h : i < l.length) :
    (np_cumsum l).getD i 0 = ∑ j ∈ Finset.range (i + 1), l.getD j 0 := by
  simpa using np_cumsum_aux_getD 0 l i h

theorem np_diff_length (l : List (ℝ × ℝ)) : (np_diff l).length = l.length - 1 := by
  induction l with
  | nil => rfl
  | cons a l ih =>
      cases l with
      | nil => rfl
      | cons b t => simpa [np_diff] using ih

theorem np_diff_getD (l : List (ℝ × ℝ)) (i : ℕ) (h : i + 1 < l.length) :
    (np_diff l).getD i (0, 0) = l.getD (i + 1) (0, 0) - l.getD i (0, 0) := by
  induction l generalizing i with
  | nil => simp at h
  | cons a l ih =>
      cases l with
      | nil => simp at h
      | cons b t =>
          cases i with
          | zero => simp [np_diff]
          | succ i =>
              have h' : i + 1 < (b :: t).length := by simpa using h
              simpa [np_diff] using ih i h'

theorem getD_map {α β : Type} (l : List α) (f : α → β) (i : ℕ) (a : α) (b : β)
    (h : i < l.length) : (l.map f).getD i b = f (l.getD i a) := by
  induction l generalizing i with
  | nil => simp at h
  | cons x t ih =>
      cases i with
      | zero => rfl
      | succ i => simpa using ih i (by simpa using h)

theorem getD_zip {α β : Type} (l₁ : List α) (l₂ : List β) (i : ℕ) (a : α) (b : β)
    (h₁ : i < l₁.length) (h₂ : i < l₂.length) :
    (l₁.zip l₂).getD i (a, b) = (l₁.getD i a, l₂.getD i b) := by
  induction l₁ generalizing l₂ i with
  | nil => simp at h₁
  | cons x t ih =>
      cases l₂ with
      | nil => simp at h₂
      | cons y s =>
          cases i with
          | zero => rfl
          | succ i =>
              simpa [List.zip_cons_cons] using
                ih s i (by simpa using h₁) (by simpa using h₂)

theorem getD_tail {α : Type} (l : List α) (i : ℕ) (d : α) :
    l.tail.getD i d = l.getD (i + 1) d := by
  cases l <;> rfl

theorem sum_map_const {α : Type} (l : List α) (f : α → ℝ) (c : ℝ)
    (h : ∀ x ∈ l, f x = c) : (l.map f).sum = l.length * c := by
  induction l with
  | nil => simp
  | cons x t ih =>
      have hx := h x (by simp)
      have ht := ih fun y hy => h y (by simp [hy])
      simp [hx, ht]
      ring

theorem getD_mem {α : Type} (l : List α) (i : ℕ) (d : α) (h : i < l.length) :
    l.getD i d ∈ l := by
  rw [List.getD_eq_getElem l d h]
  exact List.getElem_mem h

/-! ## Theorems: claims about `WormModel` -/

/-- C9: constructing a `WormModel` from an explicit center line of `N` points
and an explicit width profile raises `ValueError` when the width sample count
differs from `N`, and succeeds with `npoints = N` when the counts match. -/
theorem worm_model_init_checks_width (center : List (ℚ × ℚ)) (width : List ℚ)
    (xy : ℚ × ℚ) (len : ℚ) :
    (center.length ≠ width.length →
      WormModel.init center width xy len =
        Except.error "ValueError: Number of sample points along center line does not match sample points for width") ∧
    (center.length = width.length →
      WormModel.init center width xy len =
        Except.ok { center := center, width := width, length := len, speed := 0,
                    xy := xy, npoints := center.length }) := by
  constructor <;> intro h <;> simp [WormModel.init, h]

/-- Witness for C9 at concrete inputs: a 2-point center with a 1-sample width
is rejected, and with a 2-sample width construction succeeds with
`npoints = 2`. -/
theorem worm_model_init_checks_width_witness :
    (([((0 : ℚ), (0 : ℚ)), (1, 1)].length ≠ [(1 : ℚ)].length) ∧
      WormModel.init [((0 : ℚ), (0 : ℚ)), (1, 1)] [(1 : ℚ)] (75, 75) 50 =
        Except.error "ValueError: Number of sample points along center line does not match sample points for width") ∧
    (([((0 : ℚ), (0 : ℚ)), (1, 1)].length = [(1 : ℚ), 2].length) ∧
      WormModel.init [((0 : ℚ), (0 : ℚ)), (1, 1)] [(1 : ℚ), 2] (75, 75) 50 =
        Except.ok { center := [((0 : ℚ), (0 : ℚ)), (1, 1)], width := [(1 : ℚ), 2],
                    length := 50, speed := 0, xy := (75, 75),
                    npoints := [((0 : ℚ), (0 : ℚ)), (1, 1)].length }) :=
  ⟨⟨by decide,
    (worm_model_init_checks_width [((0 : ℚ), (0 : ℚ)), (1, 1)] [(1 : ℚ)] (75, 75) 50).1
      (by decide)⟩,
   ⟨by decide,
    (worm_model_init_checks_width [((0 : ℚ), (0 : ℚ)), (1, 1)] [(1 : ℚ), 2] (75, 75) 50).2
      (by decide)⟩⟩

/-- C10: `translate(xy)` adds `xy` to every center-line point and leaves the
width profile, length, speed, point count (and stored position) unchanged. -/
theorem worm_model_translate_effect (m : WormModel) (v : ℚ × ℚ) :
    (m.translate v).center = m.center.map (· + v) ∧
    (m.translate v).width = m.width ∧
    (m.translate v).length = m.length ∧
    (m.translate v).speed = m.speed ∧
    (m.translate v).npoints = m.npoints :=
  ⟨rfl, rfl, rfl, rfl, rfl⟩

/-- C2 (code bug): for a 3-point model, `get_parameter(full=True)` does return
the layout `[x0,y0,x1,y1,x2,y2, length, speed, w0,w1,w2]`, but feeding that
very vector back into `set_parameter` raises `AttributeError` (line 119 of
model.py evaluates `self.width.nparameter` on a numpy array), so set-after-get
is not the identity. -/
theorem worm_model_set_after_get_raises :
    (WormModel.get_parameter
        ⟨[(0, 0), (1, 0), (2, 0)], [1, 2, 1], 50, 0, (75, 75), 3⟩ true =
      [0, 0, 1, 0, 2, 0, 50, 0, 1, 2, 1]) ∧
    (WormModel.set_parameter
        ⟨[(0, 0), (1, 0), (2, 0)], [1, 2, 1], 50, 0, (75, 75), 3⟩
        (WormModel.get_parameter
          ⟨[(0, 0), (1, 0), (2, 0)], [1, 2, 1], 50, 0, (75, 75), 3⟩ true) =
      Except.error "AttributeError: numpy.ndarray object has no attribute nparameter") := by
  constructor <;> rfl

/-! ## Theorems: shape building -/

theorem getD_zipWith {α β γ : Type} (f : α → β → γ) (l₁ : List α) (l₂ : List β)
    (i : ℕ) (a : α) (b : β) (c : γ) (h₁ : i < l₁.length) (h₂ : i < l₂.length) :
    (List.zipWith f l₁ l₂).getD i c = f (l₁.getD i a) (l₂.getD i b) := by
  induction l₁ generalizing l₂ i with
  | nil => simp at h₁
  | cons x t ih =>
      cases l₂ with
      | nil => simp at h₂
      | cons y s =>
          cases i with
          | zero => rfl
          | succ i =>
              simpa using ih s i (by simpa using h₁) (by simpa using h₂)

/-- C3: for a center line of `N` points, a nonnegative width profile and
supplied unit normals of `N` vectors, `shape_from_center_discrete` returns
side curves with `left[i] = center[i] + 0.5*width[i]*normal[i]` and
`right[i] = center[i] - 0.5*width[i]*normal[i]` for every `i < N`, where the
width used is the original profile when its length is `N` and the profile
resampled to `N` points otherwise (`sfc_width`); `resample` is the external
black-box resampling operation, assumed to return the requested number of
points. -/
theorem shape_from_center_discrete_offsets (resample : List ℚ → ℕ → List ℚ)
    (center : List (ℚ × ℚ)) (width : List ℚ) (normals : List (ℚ × ℚ))
    (hres : ∀ l k, (resample l k).length = k)
    (hw : ∀ x ∈ width, 0 ≤ x)
    (hn : ∀ p ∈ normals, p.1 ^ 2 + p.2 ^ 2 = 1)
    (hnl : normals.length = center.length) :
    ∀ i, i < center.length →
      (shape_from_center_discrete resample center width normals).1.getD i (0, 0) =
        center.getD i (0, 0) +
          ((1 : ℚ) / 2 * (sfc_width resample width center.length).getD i 0) •
            normals.getD i (0, 0) ∧
      (shape_from_center_discrete resample center width normals).2.getD i (0, 0) =
        center.getD i (0, 0) -
          ((1 : ℚ) / 2 * (sfc_width resample width center.length).getD i 0) •
            normals.getD i (0, 0) := by
  intro i hi
  have hwlen : (sfc_width resample width center.length).length = center.length := by
    by_cases hc : width.length ≠ center.length
    · simp [sfc_width, hc, hres]
    · push_neg at hc
      simp [sfc_width, hc]
  have hzl : i < ((sfc_width resample width center.length).zip normals).length := by
    simp only [List.length_zip, hwlen, hnl, min_self]
    exact hi
  constructor
  · rw [show (shape_from_center_discrete resample center width normals).1 =
        List.zipWith (fun c (p : ℚ × (ℚ × ℚ)) => c + ((1 : ℚ) / 2 * p.1) • p.2)
          center ((sfc_width resample width center.length).zip normals) from rfl]
    rw [getD_zipWith _ center _ i (0, 0) ((0 : ℚ), ((0 : ℚ), (0 : ℚ))) (0, 0) hi hzl]
    rw [getD_zip _ _ i (0 : ℚ) ((0 : ℚ), (0 : ℚ)) (by rw [hwlen]; exact hi)
      (by rw [hnl]; exact hi)]
  · rw [show (shape_from_center_discrete resample center width normals).2 =
        List.zipWith (fun c (p : ℚ × (ℚ × ℚ)) => c - ((1 : ℚ) / 2 * p.1) • p.2)
          center ((sfc_width resample width center.length).zip normals) from rfl]
    rw [getD_zipWith _ center _ i (0, 0) ((0 : ℚ), ((0 : ℚ), (0 : ℚ))) (0, 0) hi hzl]
    rw [getD_zip _ _ i (0 : ℚ) ((0 : ℚ), (0 : ℚ)) (by rw [hwlen]; exact hi)
      (by rw [hnl]; exact hi)]

/-- Witness for C3 at concrete inputs: a two-point center with matching width
`[1, 1]` and unit normals `[(0,1),(0,1)]`, with the trivial zero resampler. -/
theorem shape_from_center_discrete_offsets_witness :
    ((∀ l k, ((fun (_ : List ℚ) (k : ℕ) => np_zeros1 k) l k).length = k) ∧
      (∀ x ∈ [(1 : ℚ), 1], 0 ≤ x) ∧
      (∀ p ∈ [((0 : ℚ), (1 : ℚ)), (0, 1)], p.1 ^ 2 + p.2 ^ 2 = 1) ∧
      ([((0 : ℚ), (1 : ℚ)), (0, 1)].length =
        [((0 : ℚ), (0 : ℚ)), (2, 0)].length)) ∧
    (∀ i, i < [((0 : ℚ), (0 : ℚ)), (2, 0)].length →
      (shape_from_center_discrete (fun _ k => np_zeros1 k)
          [((0 : ℚ), (0 : ℚ)), (2, 0)] [(1 : ℚ), 1]
          [((0 : ℚ), (1 : ℚ)), (0, 1)]).1.getD i (0, 0) =
        [((0 : ℚ), (0 : ℚ)), (2, 0)].getD i (0, 0) +
          ((1 : ℚ) / 2 *
            (sfc_width (fun _ k => np_zeros1 k) [(1 : ℚ), 1]
              [((0 : ℚ), (0 : ℚ)), (2, 0)].length).getD i 0) •
            [((0 : ℚ), (1 : ℚ)), (0, 1)].getD i (0, 0) ∧
      (shape_from_center_discrete (fun _ k => np_zeros1 k)
          [((0 : ℚ), (0 : ℚ)), (2, 0)] [(1 : ℚ), 1]
          [((0 : ℚ), (1 : ℚ)), (0, 1)]).2.getD i (0, 0) =
        [((0 : ℚ), (0 : ℚ)), (2, 0)].getD i (0, 0) -
          ((1 : ℚ) / 2 *
            (sfc_width (fun _ k => np_zeros1 k) [(1 : ℚ), 1]
              [((0 : ℚ), (0 : ℚ)), (2, 0)].length).getD i 0) •
            [((0 : ℚ), (1 : ℚ)), (0, 1)].getD i (0, 0)) :=
  ⟨⟨fun l k => by simp [np_zeros1], by norm_num, by norm_num, by norm_num⟩,
   shape_from_center_discrete_offsets (fun _ k => np_zeros1 k)
     [((0 : ℚ), (0 : ℚ)), (2, 0)] [(1 : ℚ), 1] [((0 : ℚ), (1 : ℚ)), (0, 1)]
     (fun l k => by simp [np_zeros1]) (by norm_num) (by norm_num) (by norm_num)⟩

/-! ## Theorems: head/tail resolution (`shape_from_image`, no hint) -/

theorem np_argsort_length (l : List ℚ) : (np_argsort l).length = l.length := by
  simp [np_argsort, List.length_insertionSort]

theorem getD_drop {α : Type} (l : List α) (k i : ℕ) (d : α) (h : k + i < l.length) :
    (l.drop k).getD i d = l.getD (k + i) d := by
  have hi : i < (l.drop k).length := by
    rw [List.length_drop]
    omega
  rw [List.getD_eq_getElem _ _ hi, List.getD_eq_getElem _ _ h]
  simp [List.getElem_drop]

theorem eq_pair_of_length_two (l : List ℕ) (h : l.length = 2) :
    l = [l.getD 0 0, l.getD 1 0] := by
  cases l with
  | nil => simp at h
  | cons a t =>
      cases t with
      | nil => simp at h
      | cons b s =>
          cases s with
          | nil => rfl
          | cons c u => simp at h

theorem map_fst_map_pair {α β : Type} (l : List α) (f : α → β) :
    (l.map (fun i => (i, f i))).map Prod.fst = l := by
  induction l with
  | nil => rfl
  | cons a t ih => simp [ih]

/-- The last two positions produced by `np_argsort` point at two distinct
entries that dominate every other entry of the array. -/
theorem np_argsort_top_two (vals : List ℚ) (h2 : 2 ≤ vals.length) :
    ∃ a b, a < vals.length ∧ b < vals.length ∧ a ≠ b ∧
      (∀ k, k < vals.length → k ≠ a → k ≠ b →
        vals.getD k 0 ≤ vals.getD a 0 ∧ vals.getD k 0 ≤ vals.getD b 0) ∧
      (np_argsort vals).drop ((np_argsort vals).length - 2) = [a, b] := by
  set n := vals.length with hn
  set pairs := (List.range n).map (fun i => (i, vals.getD i 0)) with hpairs
  set pl := pairs.insertionSort pairLE with hpl
  have hperm : pl.Perm pairs := List.perm_insertionSort pairLE pairs
  have hsorted : pl.Sorted pairLE := List.sorted_insertionSort pairLE pairs
  have hplen : pl.length = n := by
    rw [hpl, List.length_insertionSort, hpairs, List.length_map, List.length_range]
  have hmem : ∀ p ∈ pl, p.1 < n ∧ p.2 = vals.getD p.1 0 := by
    intro p hp
    have hp' : p ∈ pairs := hperm.mem_iff.mp hp
    rw [hpairs] at hp'
    obtain ⟨i, hi, hip⟩ := List.mem_map.mp hp'
    rw [← hip]
    exact ⟨List.mem_range.mp hi, rfl⟩
  have hs : np_argsort vals = pl.map Prod.fst := by
    rw [hpl, hpairs]
    rfl
  have hfst : (pl.map Prod.fst).Nodup := by
    have hmp : (pl.map Prod.fst).Perm (pairs.map Prod.fst) := hperm.map Prod.fst
    have hrange : pairs.map Prod.fst = List.range n := by
      rw [hpairs]
      exact map_fst_map_pair _ _
    exact hmp.nodup_iff.mpr (hrange ▸ List.nodup_range n)
  have hn2 : n - 2 < pl.length := by omega
  have hn1 : n - 1 < pl.length := by omega
  have e2 : pl.getD (n - 2) (0, 0) = pl[n - 2] := List.getD_eq_getElem pl (0, 0) hn2
  have e1 : pl.getD (n - 1) (0, 0) = pl[n - 1] := List.getD_eq_getElem pl (0, 0) hn1
  have hm2 := hmem _ (List.getElem_mem hn2)
  have hm1 := hmem _ (List.getElem_mem hn1)
  refine ⟨pl[n - 2].1, pl[n - 1].1, hm2.1, hm1.1, ?_, ?_, ?_⟩
  · intro hcon
    have hlm : n - 2 < (pl.map Prod.fst).length := by
      rw [List.length_map]
      exact hn2
    have hlm' : n - 1 < (pl.map Prod.fst).length := by
      rw [List.length_map]
      exact hn1
    have hg : (pl.map Prod.fst).get ⟨n - 2, hlm⟩ = (pl.map Prod.fst).get ⟨n - 1, hlm'⟩ := by
      rw [List.get_eq_getElem, List.get_eq_getElem, List.getElem_map, List.getElem_map]
      exact hcon
    have hij := (hfst.get_inj_iff).mp hg
    have : n - 2 = n - 1 := congrArg Fin.val hij
    omega
  · intro k hk hka hkb
    have hkp : ((k, vals.getD k 0) : ℕ × ℚ) ∈ pl := by
      apply hperm.mem_iff.mpr
      rw [hpairs]
      exact List.mem_map.mpr ⟨k, List.mem_range.mpr hk, rfl⟩
    obtain ⟨j, hjl, hj⟩ := List.mem_iff_getElem.mp hkp
    have hja : j ≠ n - 2 := by
      intro hcon
      apply hka
      subst hcon
      rw [hj]
    have hjb : j ≠ n - 1 := by
      intro hcon
      apply hkb
      subst hcon
      rw [hj]
    have hjlt : j < n - 2 := by
      rw [hplen] at hjl
      omega
    have hr2 : pairLE (pl.get ⟨j, hjl⟩) (pl.get ⟨n - 2, hn2⟩) :=
      hsorted.rel_get_of_lt (by exact hjlt)
    have hr1 : pairLE (pl.get ⟨j, hjl⟩) (pl.get ⟨n - 1, hn1⟩) :=
      hsorted.rel_get_of_lt (by show j < n - 1; omega)
    have hr2' : (pl[j].2 : ℚ) ≤ pl[n - 2].2 := hr2
    have hr1' : (pl[j].2 : ℚ) ≤ pl[n - 1].2 := hr1
    rw [hj] at hr2' hr1'
    constructor
    · rw [← hm2.2]
      exact hr2'
    · rw [← hm1.2]
      exact hr1'
  · rw [hs]
    have hlen2 : ((pl.map Prod.fst).drop ((pl.map Prod.fst).length - 2)).length = 2 := by
      rw [List.length_drop, List.length_map, hplen]
      omega
    rw [eq_pair_of_length_two _ hlen2]
    have hmlen : (pl.map Prod.fst).length = n := by
      rw [List.length_map, hplen]
    have hd0 : ((pl.map Prod.fst).drop ((pl.map Prod.fst).length - 2)).getD 0 0 =
        pl[n - 2].1 := by
      rw [hmlen, getD_drop _ _ _ _ (by omega)]
      have h20 : n - 2 + 0 = n - 2 := by omega
      rw [h20, getD_map pl Prod.fst (n - 2) (0, 0) 0 hn2, e2]
    have hd1 : ((pl.map Prod.fst).drop ((pl.map Prod.fst).length - 2)).getD 1 0 =
        pl[n - 1].1 := by
      rw [hmlen, getD_drop _ _ _ _ (by omega)]
      have h21 : n - 2 + 1 = n - 1 := by omega
      rw [h21, getD_map pl Prod.fst (n - 1) (0, 0) 0 hn1, e1]
    rw [hd0, hd1]

/-- C5: head/tail resolution in `shape_from_image` without a hint follows the
three-way disjunction on the number of curvature peaks: with `>= 2` peaks the
two peaks of largest peak value are chosen (sorted) and the status grows
by 20; with exactly one peak, the peak and the point `ncontour//2` further
along the contour (mod `ncontour`) are chosen and the status grows by 40;
with no peaks, indices `0` and `ncontour//2` are chosen and the status grows
by 60. -/
theorem find_head_tail_no_hint_branches (peak_ids : List ℕ) (peak_values : List ℚ)
    (ncontour status : ℕ) (hlen : peak_ids.length = peak_values.length) :
    (2 ≤ peak_ids.length →
      ∃ a b, a < peak_ids.length ∧ b < peak_ids.length ∧ a ≠ b ∧
        (∀ k, k < peak_ids.length → k ≠ a → k ≠ b →
          peak_values.getD k 0 ≤ peak_values.getD a 0 ∧
          peak_values.getD k 0 ≤ peak_values.getD b 0) ∧
        find_head_tail_no_hint peak_ids peak_values ncontour status =
          (np_sort_nat [peak_ids.getD a 0, peak_ids.getD b 0], status + 20)) ∧
    (peak_ids.length = 1 → peak_ids.getD 0 0 < ncontour →
      find_head_tail_no_hint peak_ids peak_values ncontour status =
        (np_sort_nat [peak_ids.getD 0 0, (peak_ids.getD 0 0 + ncontour / 2) % ncontour],
          status + 40)) ∧
    (peak_ids.length = 0 →
      find_head_tail_no_hint peak_ids peak_values ncontour status =
        ([0, ncontour / 2], status + 60)) := by
  refine ⟨?_, ?_, ?_⟩
  · intro h2
    obtain ⟨a, b, ha, hb, hab, hdom, hdrop⟩ :=
      np_argsort_top_two peak_values (hlen ▸ h2)
    refine ⟨a, b, hlen ▸ ha, hlen ▸ hb, hab, ?_, ?_⟩
    · intro k hk hka hkb
      exact hdom k (hlen ▸ hk) hka hkb
    · rw [find_head_tail_no_hint, if_pos h2, hdrop]
      rfl
  · intro h1 hc
    rw [find_head_tail_no_hint, if_neg (by omega), if_pos h1, Nat.mod_eq_of_lt hc]
  · intro h0
    rw [find_head_tail_no_hint, if_neg (by omega), if_neg (by omega)]

/-- Witness for C5 at concrete inputs: peaks at contour positions `[3, 7, 5]`
with peak values `[1, 5, 2]` (so the two largest are at positions 1 and 2,
contour indices 7 and 5), `ncontour = 100`, `status = 0`. -/
theorem find_head_tail_no_hint_branches_witness :
    ([3, 7, 5].length = [(1 : ℚ), 5, 2].length) ∧
    (2 ≤ [3, 7, 5].length) ∧
    (∃ a b, a < [3, 7, 5].length ∧ b < [3, 7, 5].length ∧ a ≠ b ∧
      (∀ k, k < [3, 7, 5].length → k ≠ a → k ≠ b →
        [(1 : ℚ), 5, 2].getD k 0 ≤ [(1 : ℚ), 5, 2].getD a 0 ∧
        [(1 : ℚ), 5, 2].getD k 0 ≤ [(1 : ℚ), 5, 2].getD b 0) ∧
      find_head_tail_no_hint [3, 7, 5] [(1 : ℚ), 5, 2] 100 0 =
        (np_sort_nat [[3, 7, 5].getD a 0, [3, 7, 5].getD b 0], 0 + 20)) :=
  ⟨rfl, by norm_num,
   (find_head_tail_no_hint_branches [3, 7, 5] [(1 : ℚ), 5, 2] 100 0 rfl).1
     (by norm_num)⟩

/-! ## Theorems: angles and wrapping -/

theorem np_mod_bounds (a b : ℝ) (hb : 0 < b) : 0 ≤ np_mod a b ∧ np_mod a b < b := by
  have hfr : np_mod a b = b * Int.fract (a / b) := by
    rw [np_mod, Int.fract]
    field_simp
  constructor
  · rw [hfr]
    exact mul_nonneg hb.le (Int.fract_nonneg _)
  · rw [hfr]
    calc b * Int.fract (a / b) < b * 1 :=
          (mul_lt_mul_left hb).mpr (Int.fract_lt_one _)
    _ = b := mul_one b

theorem wrap_angle_bounds (x : ℝ) :
    -Real.pi ≤ wrap_angle x ∧ wrap_angle x < Real.pi := by
  have h := np_mod_bounds (x + Real.pi) (2 * Real.pi) Real.two_pi_pos
  constructor
  · rw [wrap_angle]
    linarith [h.1]
  · rw [wrap_angle]
    linarith [h.2]

theorem wrap_angle_eq_add_int (x : ℝ) :
    ∃ m : ℤ, wrap_angle x = x + 2 * Real.pi * m := by
  refine ⟨-⌊(x + Real.pi) / (2 * Real.pi)⌋, ?_⟩
  rw [wrap_angle, np_mod]
  push_cast
  ring

theorem sum_wrap_angle_eq_add_int (g : ℕ → ℝ) (k : ℕ) :
    ∃ m : ℤ, ∑ j ∈ Finset.range k, wrap_angle (g j) =
      (∑ j ∈ Finset.range k, g j) + 2 * Real.pi * m := by
  induction k with
  | zero => exact ⟨0, by simp⟩
  | succ k ih =>
      obtain ⟨m, hm⟩ := ih
      obtain ⟨m', hm'⟩ := wrap_angle_eq_add_int (g k)
      refine ⟨m + m', ?_⟩
      rw [Finset.sum_range_succ, Finset.sum_range_succ, hm, hm']
      push_cast
      ring

theorem cos_sin_eq_of_two_pi_int (x y : ℝ) (m : ℤ) (h : x = y + 2 * Real.pi * m) :
    Real.cos x = Real.cos y ∧ Real.sin x = Real.sin y := by
  have hx : x = y + (m : ℝ) * (2 * Real.pi) := by
    rw [h]
    ring
  rw [hx]
  exact ⟨Real.cos_add_int_mul_two_pi y m, Real.sin_add_int_mul_two_pi y m⟩

theorem np_arctan2_one_zero : np_arctan2 1 0 = Real.pi / 2 := by
  rw [np_arctan2, show ((⟨0, 1⟩ : ℂ)) = Complex.I from rfl]
  exact Complex.arg_I

theorem np_arctan2_cos_sin (x y h : ℝ) (hs : Real.sqrt (x ^ 2 + y ^ 2) = h)
    (hp : 0 < h) :
    Real.cos (Real.pi / 2 - np_arctan2 x y) = x / h ∧
    Real.sin (Real.pi / 2 - np_arctan2 x y) = y / h := by
  have habs : Complex.abs ⟨y, x⟩ = h := by
    rw [Complex.abs_apply, Complex.normSq_mk]
    rw [show y * y + x * x = x ^ 2 + y ^ 2 by ring]
    exact hs
  have hz : (⟨y, x⟩ : ℂ) ≠ 0 := by
    intro h0
    rw [h0] at habs
    simp only [map_zero] at habs
    exact hp.ne' habs.symm
  constructor
  · rw [Real.cos_pi_div_two_sub, np_arctan2, Complex.sin_arg, habs]
  · rw [Real.sin_pi_div_two_sub, np_arctan2, Complex.cos_arg hz, habs]

/-! ## Theorems: structure of `theta_from_center_discrete` -/

theorem tfc_theta_length (center : List (ℝ × ℝ)) :
    (theta_from_center_discrete center).theta.length = center.length - 2 := by
  simp only [theta_from_center_discrete]
  rw [List.length_map, List.length_zip, List.length_tail, np_diff_length]
  omega

theorem tfc_theta_getD (center : List (ℝ × ℝ)) (j : ℕ) (h : j < center.length - 2) :
    (theta_from_center_discrete center).theta.getD j 0 =
      wrap_angle (np_arctan2 ((np_diff center).getD j (0, 0)).1
          ((np_diff center).getD j (0, 0)).2 -
        np_arctan2 ((np_diff center).getD (j + 1) (0, 0)).1
          ((np_diff center).getD (j + 1) (0, 0)).2) * ((center.length : ℝ) - 1) := by
  have hvl : (np_diff center).length = center.length - 1 := np_diff_length center
  have htl : (np_diff center).tail.length = center.length - 2 := by
    rw [List.length_tail, hvl]
    omega
  have hzl : j < ((np_diff center).zip (np_diff center).tail).length := by
    rw [List.length_zip, hvl, htl]
    omega
  simp only [theta_from_center_discrete]
  rw [getD_map _ _ j ((0, 0), (0, 0)) 0 hzl]
  rw [getD_zip _ _ j (0, 0) (0, 0) (by omega : j < (np_diff center).length)
    (by rw [htl]; omega)]
  rw [getD_tail]

theorem tfc_orientation (center : List (ℝ × ℝ)) :
    (theta_from_center_discrete center).orientation =
      wrap_angle (np_arctan2 1 0 -
        np_arctan2 ((np_diff center).getD ((center.length - 1) / 2) (0, 0)).1
          ((np_diff center).getD ((center.length - 1) / 2) (0, 0)).2) := rfl

theorem tfc_xy (center : List (ℝ × ℝ)) :
    (theta_from_center_discrete center).xy =
      center.getD ((center.length - 1) / 2) (0, 0) := rfl

theorem tfc_length (center : List (ℝ × ℝ)) :
    (theta_from_center_discrete center).length =
      ((np_diff center).map (fun v => Real.sqrt (v.1 ^ 2 + v.2 ^ 2))).sum := rfl

theorem np_arctan2_neg_one_zero : np_arctan2 (-1) 0 = -(Real.pi / 2) := by
  rw [np_arctan2, show ((⟨0, -1⟩ : ℂ)) = -Complex.I from by
    apply Complex.ext <;> simp]
  exact Complex.arg_neg_I

theorem wrap_angle_pi : wrap_angle Real.pi = -Real.pi := by
  rw [wrap_angle, np_mod]
  rw [show Real.pi + Real.pi = 2 * Real.pi by ring]
  rw [div_self (ne_of_gt Real.two_pi_pos)]
  rw [Int.floor_one]
  push_cast
  ring

/-- C8 (amended): for a center line of `N ≥ 2` points with the default
sampling parameters, `theta_from_center_discrete` returns exactly `N - 2`
theta values, each lying in `[-(N-1)π, (N-1)π)` (the wrapped turning angles
rescaled by `nsamples - 1`, line 640 of geometry.py), and an orientation in
`[-π, π)`. -/
theorem theta_from_center_discrete_ranges (center : List (ℝ × ℝ))
    (h2 : 2 ≤ center.length) :
    (theta_from_center_discrete center).theta.length = center.length - 2 ∧
    (∀ t ∈ (theta_from_center_discrete center).theta,
      -(((center.length : ℝ) - 1) * Real.pi) ≤ t ∧
        t < ((center.length : ℝ) - 1) * Real.pi) ∧
    (-Real.pi ≤ (theta_from_center_discrete center).orientation ∧
      (theta_from_center_discrete center).orientation < Real.pi) := by
  refine ⟨tfc_theta_length center, ?_, ?_⟩
  · intro t ht
    simp only [theta_from_center_discrete] at ht
    obtain ⟨vw, hvw, hteq⟩ := List.mem_map.mp ht
    have hw := wrap_angle_bounds (np_arctan2 vw.1.1 vw.1.2 - np_arctan2 vw.2.1 vw.2.2)
    have hc2 : (2 : ℝ) ≤ (center.length : ℝ) := by exact_mod_cast h2
    have hcpos : (0 : ℝ) < (center.length : ℝ) - 1 := by linarith
    rw [← hteq]
    constructor
    · nlinarith [hw.1, hcpos]
    · nlinarith [hw.2, hcpos]
  · rw [tfc_orientation]
    exact wrap_angle_bounds _

/-- Witness for C8 at a concrete 5-point center line. -/
theorem theta_from_center_discrete_ranges_witness :
    2 ≤ [((0 : ℝ), (0 : ℝ)), (1, 0), (2, 0), (3, 0), (4, 0)].length ∧
    ((theta_from_center_discrete
        [((0 : ℝ), (0 : ℝ)), (1, 0), (2, 0), (3, 0), (4, 0)]).theta.length =
      [((0 : ℝ), (0 : ℝ)), (1, 0), (2, 0), (3, 0), (4, 0)].length - 2 ∧
    (∀ t ∈ (theta_from_center_discrete
        [((0 : ℝ), (0 : ℝ)), (1, 0), (2, 0), (3, 0), (4, 0)]).theta,
      -((([((0 : ℝ), (0 : ℝ)), (1, 0), (2, 0), (3, 0), (4, 0)].length : ℝ) - 1) *
          Real.pi) ≤ t ∧
        t < (([((0 : ℝ), (0 : ℝ)), (1, 0), (2, 0), (3, 0), (4, 0)].length : ℝ) - 1) *
          Real.pi) ∧
    (-Real.pi ≤ (theta_from_center_discrete
        [((0 : ℝ), (0 : ℝ)), (1, 0), (2, 0), (3, 0), (4, 0)]).orientation ∧
      (theta_from_center_discrete
        [((0 : ℝ), (0 : ℝ)), (1, 0), (2, 0), (3, 0), (4, 0)]).orientation < Real.pi)) :=
  ⟨by norm_num,
   theta_from_center_discrete_ranges
     [((0 : ℝ), (0 : ℝ)), (1, 0), (2, 0), (3, 0), (4, 0)] (by norm_num)⟩

/-- Counterexample to C8 as stated: for the straight center line
`[(0,0),(-1,0),(-2,0),(-3,0),(-4,0)]` (5 points) the returned orientation is
exactly `-π`, which does not lie in the claimed interval `(-π, π]`. -/
theorem theta_from_center_discrete_range_counterexample :
    (theta_from_center_discrete
        [((0 : ℝ), (0 : ℝ)), (-1, 0), (-2, 0), (-3, 0), (-4, 0)]).orientation =
      -Real.pi ∧
    ¬(-Real.pi < (theta_from_center_discrete
        [((0 : ℝ), (0 : ℝ)), (-1, 0), (-2, 0), (-3, 0), (-4, 0)]).orientation ∧
      (theta_from_center_discrete
        [((0 : ℝ), (0 : ℝ)), (-1, 0), (-2, 0), (-3, 0), (-4, 0)]).orientation ≤
        Real.pi) := by
  have ho : (theta_from_center_discrete
      [((0 : ℝ), (0 : ℝ)), (-1, 0), (-2, 0), (-3, 0), (-4, 0)]).orientation =
        -Real.pi := by
    rw [tfc_orientation]
    have hd : (np_diff [((0 : ℝ), (0 : ℝ)), (-1, 0), (-2, 0), (-3, 0), (-4, 0)]).getD
        (([((0 : ℝ), (0 : ℝ)), (-1, 0), (-2, 0), (-3, 0), (-4, 0)].length - 1) / 2)
        (0, 0) = (-1, 0) := by
      norm_num [np_diff, Prod.mk_sub_mk]
    rw [hd, np_arctan2_one_zero, np_arctan2_neg_one_zero]
    rw [show Real.pi / 2 - -(Real.pi / 2) = Real.pi by ring]
    exact wrap_angle_pi
  refine ⟨ho, ?_⟩
  rw [ho]
  intro hcon
  exact lt_irrefl _ hcon.1

/-! ## Theorems: structure of `center_from_theta_discrete` -/

theorem cft_itheta_length (θ : List ℝ) (o : ℝ) :
    (cft_itheta θ o).length = θ.length + 1 := by
  simp only [cft_itheta]
  rw [List.length_map, List.length_map, np_cumsum_length]
  rfl

theorem sum_getD_cons_zero (θ : List ℝ) (k : ℕ) :
    ∑ j ∈ Finset.range (k + 1), ((0 : ℝ) :: θ).getD j 0 =
      ∑ j ∈ Finset.range k, θ.getD j 0 := by
  rw [Finset.sum_range_succ' (fun j => ((0 : ℝ) :: θ).getD j 0)]
  simp

theorem cft_itheta_getD (θ : List ℝ) (o : ℝ) (k : ℕ) (h : k < θ.length + 1) :
    (cft_itheta θ o).getD k 0 =
      (∑ j ∈ Finset.range k, θ.getD j 0) * (1 / (((θ.length + 2 : ℕ) : ℝ) - 1)) +
        (o - (∑ j ∈ Finset.range ((θ.length + 2 - 1) / 2), θ.getD j 0) *
          (1 / (((θ.length + 2 : ℕ) : ℝ) - 1))) := by
  have hclen : ((0 : ℝ) :: θ).length = θ.length + 1 := rfl
  have hn2 : (θ.length + 2 - 1) / 2 < θ.length + 1 := by omega
  have hit0 : ∀ m, m < θ.length + 1 →
      ((np_cumsum ((0 : ℝ) :: θ)).map
        (· * (1 / (((θ.length + 2 : ℕ) : ℝ) - 1)))).getD m 0 =
      (∑ j ∈ Finset.range m, θ.getD j 0) * (1 / (((θ.length + 2 : ℕ) : ℝ) - 1)) := by
    intro m hm
    have hmc : m < (np_cumsum ((0 : ℝ) :: θ)).length := by
      rw [np_cumsum_length, hclen]
      exact hm
    rw [getD_map _ _ m 0 0 hmc]
    rw [np_cumsum_getD _ m (by rw [hclen]; exact hm)]
    rw [sum_getD_cons_zero]
  have hlen0 : ((np_cumsum ((0 : ℝ) :: θ)).map
      (· * (1 / (((θ.length + 2 : ℕ) : ℝ) - 1)))).length = θ.length + 1 := by
    rw [List.length_map, np_cumsum_length, hclen]
  simp only [cft_itheta]
  rw [getD_map _ _ k 0 0 (by rw [hlen0]; exact h)]
  rw [hit0 k h, hit0 _ hn2]

theorem cft_length (θ : List ℝ) (o : ℝ) (xy : ℝ × ℝ) (len : ℝ) :
    (center_from_theta_discrete θ o xy len).length = θ.length + 2 := by
  simp only [center_from_theta_discrete]
  rw [List.length_map, List.length_map, List.length_cons, List.length_zip,
    np_cumsum_length, np_cumsum_length, List.length_map, List.length_map,
    cft_itheta_length]
  simp

theorem cft_center1_getD (θ : List ℝ) (o : ℝ) (len : ℝ) (k : ℕ)
    (h : k < θ.length + 2) :
    (((((0 : ℝ), (0 : ℝ)) ::
        (np_cumsum ((cft_itheta θ o).map Real.cos)).zip
          (np_cumsum ((cft_itheta θ o).map Real.sin))).map
      (fun p => (len * (1 / (((θ.length + 2 : ℕ) : ℝ) - 1))) • p)).getD k (0, 0)) =
      (len * (1 / (((θ.length + 2 : ℕ) : ℝ) - 1))) •
        ((∑ j ∈ Finset.range k, Real.cos ((cft_itheta θ o).getD j 0)),
         (∑ j ∈ Finset.range k, Real.sin ((cft_itheta θ o).getD j 0))) := by
  have hitlen : (cft_itheta θ o).length = θ.length + 1 := cft_itheta_length θ o
  have hcoslen : (np_cumsum ((cft_itheta θ o).map Real.cos)).length = θ.length + 1 := by
    rw [np_cumsum_length, List.length_map, hitlen]
  have hsinlen : (np_cumsum ((cft_itheta θ o).map Real.sin)).length = θ.length + 1 := by
    rw [np_cumsum_length, List.length_map, hitlen]
  have hziplen : ((np_cumsum ((cft_itheta θ o).map Real.cos)).zip
      (np_cumsum ((cft_itheta θ o).map Real.sin))).length = θ.length + 1 := by
    rw [List.length_zip, hcoslen, hsinlen, min_self]
  have hconslen : ((((0 : ℝ), (0 : ℝ)) ::
      (np_cumsum ((cft_itheta θ o).map Real.cos)).zip
        (np_cumsum ((cft_itheta θ o).map Real.sin))).length) = θ.length + 2 := by
    rw [List.length_cons, hziplen]
  rw [getD_map _ _ k (0, 0) (0, 0) (by rw [hconslen]; exact h)]
  cases k with
  | zero => simp
  | succ k =>
      rw [List.getD_cons_succ]
      rw [getD_zip _ _ k 0 0 (by rw [hcoslen]; omega) (by rw [hsinlen]; omega)]
      rw [np_cumsum_getD _ k (by rw [List.length_map, hitlen]; omega)]
      rw [np_cumsum_getD _ k (by rw [List.length_map, hitlen]; omega)]
      have hc : ∀ j ∈ Finset.range (k + 1),
          ((cft_itheta θ o).map Real.cos).getD j 0 =
            Real.cos ((cft_itheta θ o).getD j 0) := by
        intro j hj
        have hjlt : j < (cft_itheta θ o).length := by
          rw [hitlen]
          have := Finset.mem_range.mp hj
          omega
        exact getD_map _ _ j 0 0 hjlt
      have hsn : ∀ j ∈ Finset.range (k + 1),
          ((cft_itheta θ o).map Real.sin).getD j 0 =
            Real.sin ((cft_itheta θ o).getD j 0) := by
        intro j hj
        have hjlt : j < (cft_itheta θ o).length := by
          rw [hitlen]
          have := Finset.mem_range.mp hj
          omega
        exact getD_map _ _ j 0 0 hjlt
      rw [Finset.sum_congr rfl hc, Finset.sum_congr rfl hsn]

theorem cft_getD (θ : List ℝ) (o : ℝ) (xy : ℝ × ℝ) (len : ℝ) (i : ℕ)
    (h : i < θ.length + 2) :
    (center_from_theta_discrete θ o xy len).getD i (0, 0) =
      (len * (1 / (((θ.length + 2 : ℕ) : ℝ) - 1))) •
          ((∑ j ∈ Finset.range i, Real.cos ((cft_itheta θ o).getD j 0)),
           (∑ j ∈ Finset.range i, Real.sin ((cft_itheta θ o).getD j 0))) +
        (xy - (len * (1 / (((θ.length + 2 : ℕ) : ℝ) - 1))) •
          ((∑ j ∈ Finset.range ((θ.length + 2 - 1) / 2),
              Real.cos ((cft_itheta θ o).getD j 0)),
           (∑ j ∈ Finset.range ((θ.length + 2 - 1) / 2),
              Real.sin ((cft_itheta θ o).getD j 0)))) := by
  have hitlen : (cft_itheta θ o).length = θ.length + 1 := cft_itheta_length θ o
  have hc1len : (((((0 : ℝ), (0 : ℝ)) ::
      (np_cumsum ((cft_itheta θ o).map Real.cos)).zip
        (np_cumsum ((cft_itheta θ o).map Real.sin))).map
      (fun p => (len * (1 / (((θ.length + 2 : ℕ) : ℝ) - 1))) • p)).length) =
      θ.length + 2 := by
    rw [List.length_map, List.length_cons, List.length_zip, np_cumsum_length,
      np_cumsum_length, List.length_map, List.length_map, hitlen]
    simp
  have hn2 : (θ.length + 2 - 1) / 2 < θ.length + 2 := by omega
  simp only [center_from_theta_discrete]
  rw [getD_map _ _ i (0, 0) (0, 0) (by rw [hc1len]; exact h)]
  rw [cft_center1_getD θ o len i h, cft_center1_getD θ o len _ hn2]

/-! ## Theorems: the discrete round trip -/

theorem anchored_wrap_sum (φ : ℕ → ℝ) (k n2 : ℕ) :
    ∃ m : ℤ,
      (∑ j ∈ Finset.range k, wrap_angle (φ j - φ (j + 1))) +
        (wrap_angle (Real.pi / 2 - φ n2) -
          ∑ j ∈ Finset.range n2, wrap_angle (φ j - φ (j + 1))) =
      (Real.pi / 2 - φ k) + 2 * Real.pi * m := by
  obtain ⟨a, ha⟩ := sum_wrap_angle_eq_add_int (fun j => φ j - φ (j + 1)) k
  obtain ⟨b, hb⟩ := sum_wrap_angle_eq_add_int (fun j => φ j - φ (j + 1)) n2
  obtain ⟨e, he⟩ := wrap_angle_eq_add_int (Real.pi / 2 - φ n2)
  refine ⟨a + e - b, ?_⟩
  rw [ha, hb, he, Finset.sum_range_sub' φ k, Finset.sum_range_sub' φ n2]
  push_cast
  ring

/-- Abstract form of the round trip: if the inputs handed to
`center_from_theta_discrete` are related to a uniformly sampled `center` line
(all segments of equal length `hstep > 0`) in the way
`theta_from_center_discrete` produces them (theta entries are wrapped angle
differences rescaled by `n - 1`, the orientation anchors the tangent angle at
the middle segment, `xy` is the middle sample and `len = (n-1)*hstep`), then
the reconstruction returns `center` exactly. -/
theorem cft_reconstruct (θ : List ℝ) (o : ℝ) (xy : ℝ × ℝ) (len : ℝ)
    (center : List (ℝ × ℝ)) (hstep : ℝ) (φ : ℕ → ℝ)
    (h5 : 5 ≤ center.length) (hpos : 0 < hstep)
    (hθlen : θ.length = center.length - 2)
    (hθget : ∀ j, j < center.length - 2 →
      θ.getD j 0 = wrap_angle (φ j - φ (j + 1)) * ((center.length : ℝ) - 1))
    (ho : o = wrap_angle (Real.pi / 2 - φ ((center.length - 1) / 2)))
    (hxy : xy = center.getD ((center.length - 1) / 2) (0, 0))
    (hlen : len = ((center.length : ℝ) - 1) * hstep)
    (htrigc : ∀ j, j < center.length - 1 →
      Real.cos (Real.pi / 2 - φ j) = ((np_diff center).getD j (0, 0)).1 / hstep)
    (htrigs : ∀ j, j < center.length - 1 →
      Real.sin (Real.pi / 2 - φ j) = ((np_diff center).getD j (0, 0)).2 / hstep) :
    center_from_theta_discrete θ o xy len = center := by
  have hn2le : (center.length - 1) / 2 ≤ center.length - 2 := by omega
  have hcast : (((θ.length + 2 : ℕ) : ℝ) - 1) = (center.length : ℝ) - 1 := by
    have he : θ.length + 2 = center.length := by omega
    rw [he]
  have hc5 : (5 : ℝ) ≤ (center.length : ℝ) := by exact_mod_cast h5
  have hcne : ((center.length : ℝ) - 1) ≠ 0 := by linarith
  have hn2e : (θ.length + 2 - 1) / 2 = (center.length - 1) / 2 := by omega
  have hit : ∀ k, k < center.length - 1 → ∃ m : ℤ,
      (cft_itheta θ o).getD k 0 = (Real.pi / 2 - φ k) + 2 * Real.pi * m := by
    intro k hk
    rw [cft_itheta_getD θ o k (by omega)]
    have hWsum : ∀ K, K ≤ center.length - 2 →
        (∑ j ∈ Finset.range K, θ.getD j 0) * (1 / (((θ.length + 2 : ℕ) : ℝ) - 1)) =
          ∑ j ∈ Finset.range K, wrap_angle (φ j - φ (j + 1)) := by
      intro K hK
      rw [Finset.sum_congr rfl
        (fun j hj => hθget j (by have := Finset.mem_range.mp hj; omega))]
      rw [← Finset.sum_mul, hcast, mul_one_div, mul_div_cancel_right₀ _ hcne]
    rw [hn2e, hWsum k (by omega), hWsum ((center.length - 1) / 2) hn2le, ho]
    exact anchored_wrap_sum φ k ((center.length - 1) / 2)
  have htrig : ∀ k, k < center.length - 1 →
      Real.cos ((cft_itheta θ o).getD k 0) =
        ((np_diff center).getD k (0, 0)).1 / hstep ∧
      Real.sin ((cft_itheta θ o).getD k 0) =
        ((np_diff center).getD k (0, 0)).2 / hstep := by
    intro k hk
    obtain ⟨m, hm⟩ := hit k hk
    obtain ⟨hcc, hss⟩ := cos_sin_eq_of_two_pi_int _ _ m hm
    exact ⟨hcc.trans (htrigc k hk), hss.trans (htrigs k hk)⟩
  have hA : len * (1 / (((θ.length + 2 : ℕ) : ℝ) - 1)) = hstep := by
    rw [hlen, hcast, mul_one_div, mul_comm ((center.length : ℝ) - 1) hstep,
      mul_div_assoc, div_self hcne, mul_one]
  have hsum_cos : ∀ K, K ≤ center.length - 1 →
      (∑ j ∈ Finset.range K, Real.cos ((cft_itheta θ o).getD j 0)) =
        (∑ j ∈ Finset.range K, ((np_diff center).getD j (0, 0)).1) / hstep := by
    intro K hK
    rw [Finset.sum_congr rfl
      (fun j hj => (htrig j (by have := Finset.mem_range.mp hj; omega)).1)]
    rw [Finset.sum_div]
  have hsum_sin : ∀ K, K ≤ center.length - 1 →
      (∑ j ∈ Finset.range K, Real.sin ((cft_itheta θ o).getD j 0)) =
        (∑ j ∈ Finset.range K, ((np_diff center).getD j (0, 0)).2) / hstep := by
    intro K hK
    rw [Finset.sum_congr rfl
      (fun j hj => (htrig j (by have := Finset.mem_range.mp hj; omega)).2)]
    rw [Finset.sum_div]
  have hsm : ∀ S T : ℝ, (hstep • ((S / hstep, T / hstep) : ℝ × ℝ)) = (S, T) := by
    intro S T
    have hne := ne_of_gt hpos
    rw [Prod.smul_mk, smul_eq_mul, smul_eq_mul, mul_div_cancel₀ _ hne,
      mul_div_cancel₀ _ hne]
  have htel : ∀ K, K ≤ center.length - 1 →
      (((∑ j ∈ Finset.range K, ((np_diff center).getD j (0, 0)).1),
        (∑ j ∈ Finset.range K, ((np_diff center).getD j (0, 0)).2)) : ℝ × ℝ) =
        center.getD K (0, 0) - center.getD 0 (0, 0) := by
    intro K hK
    have h1 : ∀ j ∈ Finset.range K, ((np_diff center).getD j (0, 0)).1 =
        (center.getD (j + 1) (0, 0)).1 - (center.getD j (0, 0)).1 := by
      intro j hj
      have hj1 : j + 1 < center.length := by
        have := Finset.mem_range.mp hj
        omega
      rw [np_diff_getD center j hj1]
      rfl
    have h2 : ∀ j ∈ Finset.range K, ((np_diff center).getD j (0, 0)).2 =
        (center.getD (j + 1) (0, 0)).2 - (center.getD j (0, 0)).2 := by
      intro j hj
      have hj1 : j + 1 < center.length := by
        have := Finset.mem_range.mp hj
        omega
      rw [np_diff_getD center j hj1]
      rfl
    refine Prod.ext ?_ ?_
    · show (∑ j ∈ Finset.range K, ((np_diff center).getD j (0, 0)).1) =
        (center.getD K (0, 0) - center.getD 0 (0, 0)).1
      rw [Finset.sum_congr rfl h1,
        Finset.sum_range_sub (fun j => (center.getD j (0, 0)).1) K]
      rfl
    · show (∑ j ∈ Finset.range K, ((np_diff center).getD j (0, 0)).2) =
        (center.getD K (0, 0) - center.getD 0 (0, 0)).2
      rw [Finset.sum_congr rfl h2,
        Finset.sum_range_sub (fun j => (center.getD j (0, 0)).2) K]
      rfl
  apply List.ext_getElem
  · rw [cft_length]
    omega
  · intro i h1 h2
    rw [← List.getD_eq_getElem _ (0, 0) h1, ← List.getD_eq_getElem center (0, 0) h2]
    have hi2 : i < θ.length + 2 := by
      rw [cft_length] at h1
      exact h1
    rw [cft_getD θ o xy len i hi2, hA, hn2e]
    rw [hsum_cos i (by omega), hsum_sin i (by omega),
      hsum_cos ((center.length - 1) / 2) (by omega),
      hsum_sin ((center.length - 1) / 2) (by omega)]
    rw [hsm, hsm]
    rw [htel i (by omega), htel ((center.length - 1) / 2) (by omega)]
    rw [hxy]
    abel

/-- C1 (amended): for every center line of at least 5 points whose
consecutive points are equally spaced (all segments of the same positive
Euclidean length), reconstructing with `center_from_theta_discrete` from the
`(theta, orientation, xy, length)` quadruple returned by
`theta_from_center_discrete` reproduces the center line exactly. -/
theorem center_from_theta_of_theta_from_center (center : List (ℝ × ℝ))
    (hstep : ℝ) (h5 : 5 ≤ center.length) (hpos : 0 < hstep)
    (huni : ∀ v ∈ np_diff center, Real.sqrt (v.1 ^ 2 + v.2 ^ 2) = hstep) :
    center_from_theta_discrete (theta_from_center_discrete center).theta
      (theta_from_center_discrete center).orientation
      (theta_from_center_discrete center).xy
      (theta_from_center_discrete center).length = center := by
  have hv : ∀ j, j < center.length - 1 →
      Real.sqrt (((np_diff center).getD j (0, 0)).1 ^ 2 +
        ((np_diff center).getD j (0, 0)).2 ^ 2) = hstep := by
    intro j hj
    exact huni _ (getD_mem _ j (0, 0) (by rw [np_diff_length]; omega))
  have hlen' : (theta_from_center_discrete center).length =
      ((center.length : ℝ) - 1) * hstep := by
    rw [tfc_length, sum_map_const _ _ hstep huni, np_diff_length]
    have h1n : 1 ≤ center.length := by omega
    rw [Nat.cast_sub h1n, Nat.cast_one]
  exact cft_reconstruct (theta_from_center_discrete center).theta
    (theta_from_center_discrete center).orientation
    (theta_from_center_discrete center).xy
    (theta_from_center_discrete center).length center hstep
    (fun j => np_arctan2 ((np_diff center).getD j (0, 0)).1
      ((np_diff center).getD j (0, 0)).2)
    h5 hpos (tfc_theta_length center) (fun j hj => tfc_theta_getD center j hj)
    (by rw [tfc_orientation, np_arctan2_one_zero]) (tfc_xy center) hlen'
    (fun j hj => (np_arctan2_cos_sin _ _ hstep (hv j hj) hpos).1)
    (fun j hj => (np_arctan2_cos_sin _ _ hstep (hv j hj) hpos).2)

/-- Witness for C1 at the concrete uniformly spaced center line
`[(0,0),(1,0),(2,0),(3,0),(4,0)]` with segment length 1. -/
theorem center_from_theta_of_theta_from_center_witness :
    (5 ≤ [((0 : ℝ), (0 : ℝ)), (1, 0), (2, 0), (3, 0), (4, 0)].length ∧
      (0 : ℝ) < 1 ∧
      (∀ v ∈ np_diff [((0 : ℝ), (0 : ℝ)), (1, 0), (2, 0), (3, 0), (4, 0)],
        Real.sqrt (v.1 ^ 2 + v.2 ^ 2) = 1)) ∧
    center_from_theta_discrete
      (theta_from_center_discrete
        [((0 : ℝ), (0 : ℝ)), (1, 0), (2, 0), (3, 0), (4, 0)]).theta
      (theta_from_center_discrete
        [((0 : ℝ), (0 : ℝ)), (1, 0), (2, 0), (3, 0), (4, 0)]).orientation
      (theta_from_center_discrete
        [((0 : ℝ), (0 : ℝ)), (1, 0), (2, 0), (3, 0), (4, 0)]).xy
      (theta_from_center_discrete
        [((0 : ℝ), (0 : ℝ)), (1, 0), (2, 0), (3, 0), (4, 0)]).length =
      [((0 : ℝ), (0 : ℝ)), (1, 0), (2, 0), (3, 0), (4, 0)] :=
  ⟨⟨by norm_num, by norm_num, by
      intro v hv
      norm_num [np_diff, Prod.mk_sub_mk] at hv
      rw [hv]
      norm_num [Real.sqrt_one]⟩,
   center_from_theta_of_theta_from_center
     [((0 : ℝ), (0 : ℝ)), (1, 0), (2, 0), (3, 0), (4, 0)] 1 (by norm_num)
     (by norm_num)
     (by
      intro v hv
      norm_num [np_diff, Prod.mk_sub_mk] at hv
      rw [hv]
      norm_num [Real.sqrt_one])⟩

theorem np_arctan2_ten_zero : np_arctan2 10 0 = Real.pi / 2 := by
  rw [np_arctan2, show ((⟨0, 10⟩ : ℂ)) = (10 : ℝ) * Complex.I from by
    apply Complex.ext <;> simp]
  rw [Complex.arg_real_mul _ (by norm_num : (0 : ℝ) < 10)]
  exact Complex.arg_I

theorem wrap_angle_zero : wrap_angle 0 = 0 := by
  have hd : Real.pi / (2 * Real.pi) = 1 / 2 := by
    rw [div_eq_div_iff (by positivity) (by norm_num : (2 : ℝ) ≠ 0)]
    ring
  rw [wrap_angle, np_mod, zero_add, hd]
  rw [show ⌊(1 / 2 : ℝ)⌋ = 0 from by
    rw [Int.floor_eq_zero_iff]
    constructor <;> norm_num]
  push_cast
  ring

theorem tfc_nonuniform_theta :
    (theta_from_center_discrete
      [((0 : ℝ), (0 : ℝ)), (1, 0), (2, 0), (3, 0), (13, 0)]).theta = [0, 0, 0] := by
  simp only [theta_from_center_discrete]
  norm_num [np_diff, Prod.mk_sub_mk, np_arctan2_one_zero, np_arctan2_ten_zero,
    wrap_angle_zero]

theorem tfc_nonuniform_orientation :
    (theta_from_center_discrete
      [((0 : ℝ), (0 : ℝ)), (1, 0), (2, 0), (3, 0), (13, 0)]).orientation = 0 := by
  rw [tfc_orientation]
  norm_num [np_diff, Prod.mk_sub_mk, np_arctan2_one_zero]
  exact wrap_angle_zero

theorem tfc_nonuniform_xy :
    (theta_from_center_discrete
      [((0 : ℝ), (0 : ℝ)), (1, 0), (2, 0), (3, 0), (13, 0)]).xy = (2, 0) := by
  rw [tfc_xy]
  norm_num

theorem tfc_nonuniform_length :
    (theta_from_center_discrete
      [((0 : ℝ), (0 : ℝ)), (1, 0), (2, 0), (3, 0), (13, 0)]).length = 13 := by
  rw [tfc_length]
  have h100 : Real.sqrt 100 = 10 := by
    rw [show (100 : ℝ) = 10 ^ 2 by norm_num, Real.sqrt_sq (by norm_num : (0 : ℝ) ≤ 10)]
  norm_num [np_diff, Prod.mk_sub_mk, Real.sqrt_one, h100]

theorem cft_zero_itheta (j : ℕ) (hj : j < 4) :
    (cft_itheta [(0 : ℝ), 0, 0] 0).getD j 0 = 0 := by
  have hz : ∀ K : ℕ, (∑ jj ∈ Finset.range K, ([(0 : ℝ), 0, 0].getD jj 0)) = 0 := by
    intro K
    apply Finset.sum_eq_zero
    intro x _
    rcases x with _ | x
    · rfl
    rcases x with _ | x
    · rfl
    rcases x with _ | x
    · rfl
    · simp
  rw [cft_itheta_getD _ _ j (by simpa using hj)]
  rw [hz, hz]
  norm_num

/-- Counterexample to C1 as stated: for the non-uniformly sampled straight
center line `[(0,0),(1,0),(2,0),(3,0),(13,0)]` (5 points, last segment of
length 10), the reconstructed curve's first point is `(-9/2, 0)` while the
original first point is `(0,0)` — off by `4.5`, far beyond numerical
tolerance (the reconstruction always produces uniformly spaced points). -/
theorem round_trip_counterexample :
    (center_from_theta_discrete
      (theta_from_center_discrete
        [((0 : ℝ), (0 : ℝ)), (1, 0), (2, 0), (3, 0), (13, 0)]).theta
      (theta_from_center_discrete
        [((0 : ℝ), (0 : ℝ)), (1, 0), (2, 0), (3, 0), (13, 0)]).orientation
      (theta_from_center_discrete
        [((0 : ℝ), (0 : ℝ)), (1, 0), (2, 0), (3, 0), (13, 0)]).xy
      (theta_from_center_discrete
        [((0 : ℝ), (0 : ℝ)), (1, 0), (2, 0), (3, 0), (13, 0)]).length).getD 0 (0, 0) =
      (-(9 / 2), 0) ∧
    [((0 : ℝ), (0 : ℝ)), (1, 0), (2, 0), (3, 0), (13, 0)].getD 0 (0, 0) = (0, 0) ∧
    ¬(|((center_from_theta_discrete
        (theta_from_center_discrete
          [((0 : ℝ), (0 : ℝ)), (1, 0), (2, 0), (3, 0), (13, 0)]).theta
        (theta_from_center_discrete
          [((0 : ℝ), (0 : ℝ)), (1, 0), (2, 0), (3, 0), (13, 0)]).orientation
        (theta_from_center_discrete
          [((0 : ℝ), (0 : ℝ)), (1, 0), (2, 0), (3, 0), (13, 0)]).xy
        (theta_from_center_discrete
          [((0 : ℝ), (0 : ℝ)), (1, 0), (2, 0), (3, 0), (13, 0)]).length).getD 0 (0, 0)).1 -
      ([((0 : ℝ), (0 : ℝ)), (1, 0), (2, 0), (3, 0), (13, 0)].getD 0 (0, 0)).1| ≤ 1) := by
  have hrec : (center_from_theta_discrete
      (theta_from_center_discrete
        [((0 : ℝ), (0 : ℝ)), (1, 0), (2, 0), (3, 0), (13, 0)]).theta
      (theta_from_center_discrete
        [((0 : ℝ), (0 : ℝ)), (1, 0), (2, 0), (3, 0), (13, 0)]).orientation
      (theta_from_center_discrete
        [((0 : ℝ), (0 : ℝ)), (1, 0), (2, 0), (3, 0), (13, 0)]).xy
      (theta_from_center_discrete
        [((0 : ℝ), (0 : ℝ)), (1, 0), (2, 0), (3, 0), (13, 0)]).length).getD 0 (0, 0) =
      (-(9 / 2), 0) := by
    rw [tfc_nonuniform_theta, tfc_nonuniform_orientation, tfc_nonuniform_xy,
      tfc_nonuniform_length]
    rw [cft_getD [(0 : ℝ), 0, 0] 0 (2, 0) 13 0 (by norm_num)]
    have hc2 : (∑ j ∈ Finset.range (([(0 : ℝ), 0, 0].length + 2 - 1) / 2),
        Real.cos ((cft_itheta [(0 : ℝ), 0, 0] 0).getD j 0)) = 2 := by
      rw [show ([(0 : ℝ), 0, 0].length + 2 - 1) / 2 = 2 from rfl]
      rw [Finset.sum_range_succ, Finset.sum_range_succ, Finset.sum_range_zero]
      rw [cft_zero_itheta 0 (by norm_num), cft_zero_itheta 1 (by norm_num)]
      norm_num [Real.cos_zero]
    have hs2 : (∑ j ∈ Finset.range (([(0 : ℝ), 0, 0].length + 2 - 1) / 2),
        Real.sin ((cft_itheta [(0 : ℝ), 0, 0] 0).getD j 0)) = 0 := by
      rw [show ([(0 : ℝ), 0, 0].length + 2 - 1) / 2 = 2 from rfl]
      rw [Finset.sum_range_succ, Finset.sum_range_succ, Finset.sum_range_zero]
      rw [cft_zero_itheta 0 (by norm_num), cft_zero_itheta 1 (by norm_num)]
      norm_num [Real.sin_zero]
    rw [hc2, hs2]
    rw [Finset.sum_range_zero, Finset.sum_range_zero]
    rw [Prod.smul_mk, Prod.smul_mk]
    norm_num [Prod.mk_sub_mk, Prod.mk_add_mk]
  refine ⟨hrec, rfl, ?_⟩
  rw [hrec]
  norm_num [abs_le]

/-! ## Theorems: claims about the image pipeline and matching -/

/-- C4 (code bug): on the no-contour path, `shape_from_image` does not return
the documented `(-1, zeros, zeros, zeros, zeros)` result: the return
expression at geometry.py line 1334 passes `np.zeros(npoints)` as the `dtype`
of the third `np.zeros` call (misplaced parenthesis), so evaluating the
return value raises `TypeError` (and the tuple would in any case have only
four components, not five).  Evaluated at the default `npoints = 21`. -/
theorem shape_from_image_no_contour_raises :
    shape_from_image_no_contour 21 =
      Except.error "TypeError: Cannot interpret ndarray as a data type" := rfl

/-- C7 (code bug): head/tail hint matching evaluated at the concrete distance
arrays arising from head `left[0] = (0,0)`, tail `left[-1] = (4,0)` and hint
points `[(3,0), (4,3)]`, i.e. `dists_head = [3, 5]`, `dists_tail = [1, 3]`.
Both endpoints first match hint 0; the head (distance 3 > 1) is reassigned to
its second-best candidate, hint 1 — but the returned head distance stays 3,
the distance to hint 0, instead of the second-best candidate's distance
`dists_head[1] = 5` (stale value caused by line 2176 of geometry.py). -/
theorem match_head_tail_stale_head_distance :
    match_head_tail_discrete [3, 5] [1, 3] =
      ⟨some 3, some 1, some 1, some 0⟩ ∧
    ([(3 : ℚ), 5].getD 1 0 = 5 ∧ (3 : ℚ) ≠ 5) := by
  refine ⟨?_, by norm_num, by norm_num⟩
  norm_num [match_head_tail_discrete, np_argmin, np_max, List.foldl, List.set]

/-- C6 (code bug): `center_from_sides_mean` with `with_width = True` on the
equal-length parallel sides `left = [(0,0),(1,0),(2,0)]`,
`right = [(0,1),(1,1),(2,1)]` returns a center line of 3 points but a width
array of length 2 (the two column norms of `left - right`, produced by the
`axis = 0` in line 388 of geometry.py), not the 3 pointwise separations the
specification requires. -/
theorem center_from_sides_mean_width_length :
    (center_from_sides_mean [(0, 0), (1, 0), (2, 0)] [(0, 1), (1, 1), (2, 1)]).1.length = 3 ∧
    (center_from_sides_mean [(0, 0), (1, 0), (2, 0)] [(0, 1), (1, 1), (2, 1)]).2.length = 2 ∧
    (2 : ℕ) ≠ 3 := by
  refine ⟨rfl, rfl, by decide⟩

end Worm
